import Mathlib

/-!
# Verification of the RayLibOdeMech simulation core

Shallow embedding of the fixed-step scheduler (`StepPhysics`), the
collision resolver (`nearCallback`), the surface-material table
(`gSurfaces`), the intrusive doubly linked list (`clist.c`), the entity
teardown path (`FreeBodyAndGeoms` / `FreeEntity`) and the random-entity
shape-selection loop (`CreateRandomEntity`), together with proofs of the
specification's claims about them.

C `float` quantities (the frame-time accumulator, the material and
contact coefficients) are modelled as exact rationals; every concrete
input used in a counterexample below is exactly representable and the
arithmetic performed on it is exact in binary floating point as well, so
the boundary behaviour shown is the real program's behaviour.
-/

namespace RayLibOdeMech

/-! ## Fixed-step scheduler (src/src/raylibODE.c, StepPhysics) -/

/-- `const float physSlice = 1.0 / 240.0;` (raylibODE.c:208). -/
def physSlice : ℚ := 1 / 240

/-- `#define maxPsteps 6` (raylibODE.h:44). -/
def maxPsteps : Nat := 6

/-- The `while (physCtx->frameTime > physSlice)` loop of `StepPhysics`
(raylibODE.c:245-262), with the frame-time accumulator and the step
counter `pSteps` passed explicitly.  Each iteration stands for one
`dSpaceCollide` + `dWorldQuickStep` + `dJointGroupEmpty` slice; the loop
body then subtracts one slice from the accumulator, increments `pSteps`,
and if `pSteps > maxPsteps` zeroes the accumulator and breaks.  The fuel
argument only bounds recursion; `maxPsteps + 2` units are always enough
because the cap stops the loop after `maxPsteps + 1` iterations. -/
def stepLoop : ℚ → Nat → Nat → ℚ × Nat
  | ft, p, 0 => (ft, p)
  | ft, p, fuel+1 =>
    if physSlice < ft then
      let ft' := ft - physSlice
      let p' := p + 1
      if maxPsteps < p' then (0, p') else stepLoop ft' p' fuel
    else (ft, p)

/-- `int StepPhysics(PhysicsContext* physCtx)` (raylibODE.c:241-264).
`frameTime` is the accumulator carried in the context across calls,
`elapsed` the value returned by `GetFrameTime()` this frame.  Returns
the final accumulator and the number of slices executed (`pSteps`). -/
def StepPhysics (frameTime elapsed : ℚ) : ℚ × Nat :=
  stepLoop (frameTime + elapsed) 0 (maxPsteps + 2)

theorem physSlice_pos : 0 < physSlice := by norm_num [physSlice]

/-- Core loop lemma: starting from a step count `p ≤ maxPsteps`, a
nonnegative accumulator and enough fuel, the loop either exits naturally
with the accumulator in `[0, physSlice]` and at most `maxPsteps` steps,
or hits the cap with exactly `maxPsteps + 1` steps and accumulator 0. -/
theorem stepLoop_spec : ∀ (fuel : Nat) (ft : ℚ) (p : Nat),
    p ≤ maxPsteps → maxPsteps + 2 - p ≤ fuel → 0 ≤ ft →
    (0 ≤ (stepLoop ft p fuel).1 ∧ (stepLoop ft p fuel).1 ≤ physSlice ∧
      (stepLoop ft p fuel).2 ≤ maxPsteps) ∨
    ((stepLoop ft p fuel).2 = maxPsteps + 1 ∧ (stepLoop ft p fuel).1 = 0) := by
  intro fuel
  induction fuel with
  | zero => intro ft p hp hfuel _; omega
  | succ fuel ih =>
    intro ft p hp hfuel hft
    by_cases hlt : physSlice < ft
    · by_cases hcap : maxPsteps < p + 1
      · right
        simp only [stepLoop, if_pos hlt, if_pos hcap]
        exact ⟨by omega, by trivial⟩
      · have h1 : p + 1 ≤ maxPsteps := by omega
        have h2 : maxPsteps + 2 - (p + 1) ≤ fuel := by omega
        have h3 : 0 ≤ ft - physSlice := by linarith
        have := ih (ft - physSlice) (p + 1) h1 h2 h3
        simpa only [stepLoop, if_pos hlt, if_neg hcap] using this
    · left
      simp only [stepLoop, if_neg hlt]
      exact ⟨hft, le_of_not_lt hlt, hp⟩

/-- Helper for the overload case: if the accumulator strictly exceeds
`k` slices and `p + k = maxPsteps + 1` with `1 ≤ k`, the loop hits the
cap after exactly `k` more iterations, returning `maxPsteps + 1` and a
zero accumulator. -/
theorem stepLoop_overload : ∀ (k : Nat) (ft : ℚ) (p fuel : Nat),
    1 ≤ k → p + k = maxPsteps + 1 → (k : ℚ) * physSlice < ft → k ≤ fuel →
    stepLoop ft p fuel = (0, maxPsteps + 1) := by
  intro k
  induction k with
  | zero => intro ft p fuel h1 _ _ _; omega
  | succ k ih =>
    intro ft p fuel _ hsum hft hfuel
    obtain ⟨fuel', rfl⟩ : ∃ f, fuel = f + 1 := ⟨fuel - 1, by omega⟩
    have hk0 : (0 : ℚ) ≤ (k : ℚ) := Nat.cast_nonneg k
    have hslt : physSlice < ft := by
      push_cast at hft
      nlinarith [physSlice_pos, mul_nonneg hk0 (le_of_lt physSlice_pos)]
    rcases Nat.eq_zero_or_pos k with hk0' | hkpos
    · subst hk0'
      have hcap : maxPsteps < p + 1 := by omega
      have hp1 : p + 1 = maxPsteps + 1 := by omega
      simp only [stepLoop, if_pos hslt, hp1, if_pos (Nat.lt_succ_self maxPsteps)]
    · have hcap : ¬ maxPsteps < p + 1 := by omega
      simp only [stepLoop, if_pos hslt, if_neg hcap]
      apply ih (ft - physSlice) (p + 1) fuel' hkpos (by omega)
      · push_cast at hft ⊢
        linarith
      · omega

/-- C1 (corrected): under heavy overload (accumulated time exceeding
`(maxPsteps + 1)` slices) `StepPhysics` performs `maxPsteps + 1 = 7`
integrator advances — not `maxPsteps = 6` as claimed — returns that
count, and resets the accumulator to 0.  The `if (pSteps > maxPsteps)`
test at raylibODE.c:258 runs after `pSteps++`, so the break fires only
once `pSteps` has reached `maxPsteps + 1`. -/
theorem C1_overload_steps (frameTime elapsed : ℚ)
    (h : ((maxPsteps : ℚ) + 1) * physSlice < frameTime + elapsed) :
    StepPhysics frameTime elapsed = (0, maxPsteps + 1) := by
  unfold StepPhysics
  apply stepLoop_overload (maxPsteps + 1) (frameTime + elapsed) 0 (maxPsteps + 2)
  · omega
  · omega
  · push_cast
    exact h
  · omega

/-- Witness for C1's amended theorem: one whole second of accumulated
time (240 slices' worth) yields 7 steps and a zeroed accumulator. -/
theorem C1_overload_steps_witness :
    ((maxPsteps : ℚ) + 1) * physSlice < 0 + 1 ∧
      StepPhysics 0 1 = (0, maxPsteps + 1) :=
  ⟨by norm_num [maxPsteps, physSlice],
    C1_overload_steps 0 1 (by norm_num [maxPsteps, physSlice])⟩

/-- C1 counterexample: with one second of elapsed time, `StepPhysics`
returns 7 advances, not the `maxPsteps = 6` the claim states. -/
theorem C1_counterexample :
    (StepPhysics 0 1).2 ≠ maxPsteps := by
  norm_num [StepPhysics, stepLoop, physSlice, maxPsteps]

/-- C2 (corrected): after `StepPhysics` returns, the accumulator lies in
the CLOSED interval `[0, physSlice]` — it can end exactly equal to
`physSlice` because the loop guard at raylibODE.c:245 is strict
(`frameTime > physSlice`) — and whenever the step cap was hit the
accumulator is exactly 0. -/
theorem C2_accumulator_invariant (frameTime elapsed : ℚ)
    (h1 : 0 ≤ frameTime) (h2 : 0 ≤ elapsed) :
    0 ≤ (StepPhysics frameTime elapsed).1 ∧
      (StepPhysics frameTime elapsed).1 ≤ physSlice ∧
      (maxPsteps < (StepPhysics frameTime elapsed).2 →
        (StepPhysics frameTime elapsed).1 = 0) := by
  have hft : 0 ≤ frameTime + elapsed := by linarith
  have := stepLoop_spec (maxPsteps + 2) (frameTime + elapsed) 0
    (Nat.zero_le _) (by omega) hft
  unfold StepPhysics
  rcases this with ⟨ha, hb, hc⟩ | ⟨ha, hb⟩
  · exact ⟨ha, hb, fun hcap => absurd hc (by omega)⟩
  · refine ⟨le_of_eq hb.symm, ?_, fun _ => hb⟩
    rw [hb]
    exact le_of_lt physSlice_pos

/-- Witness for C2's amended theorem at `frameTime = 0`,
`elapsed = 1/480`. -/
theorem C2_accumulator_invariant_witness :
    (0 : ℚ) ≤ 0 ∧ (0 : ℚ) ≤ 1 / 480 ∧
      (0 ≤ (StepPhysics 0 (1 / 480)).1 ∧
        (StepPhysics 0 (1 / 480)).1 ≤ physSlice ∧
        (maxPsteps < (StepPhysics 0 (1 / 480)).2 →
          (StepPhysics 0 (1 / 480)).1 = 0)) :=
  ⟨le_refl 0, by norm_num,
    C2_accumulator_invariant 0 (1 / 480) (le_refl 0) (by norm_num)⟩

/-- C2 counterexample: a call whose accumulated time is exactly one
slice performs no step (the cap is certainly not hit: 0 steps) yet
leaves the accumulator equal to `physSlice`, outside the claimed
half-open interval `[0, physSlice)`. -/
theorem C2_counterexample :
    (StepPhysics 0 physSlice).2 ≤ maxPsteps ∧
      ¬ (StepPhysics 0 physSlice).1 < physSlice := by
  norm_num [StepPhysics, stepLoop, physSlice, maxPsteps]

/-- C3 (corrected): a call whose accumulated time is exactly `k` slices
(`1 ≤ k ≤ maxPsteps`) performs `k - 1` advances — not `k` — returning
`k - 1` and leaving the accumulator exactly one slice (`physSlice`),
not ≈ 0: the strict guard `frameTime > physSlice` refuses to spend the
last whole slice. -/
theorem C3_exact_multiple (k : Nat) (h1 : 1 ≤ k) (h2 : k ≤ maxPsteps) :
    StepPhysics 0 ((k : ℚ) * physSlice) = (physSlice, k - 1) := by
  simp only [maxPsteps] at h2
  interval_cases k <;> norm_num [StepPhysics, stepLoop, physSlice, maxPsteps]

/-- Witness for C3's amended theorem at `k = 2`: two slices of elapsed
time produce exactly one advance and a remainder of one slice. -/
theorem C3_exact_multiple_witness :
    1 ≤ 2 ∧ 2 ≤ maxPsteps ∧
      StepPhysics 0 ((2 : ℚ) * physSlice) = (physSlice, 2 - 1) :=
  ⟨by decide, by decide, C3_exact_multiple 2 (by decide) (by decide)⟩

/-- C3 counterexample: with exactly two slices of accumulated time the
call returns 1 advance, not the 2 the claim states. -/
theorem C3_counterexample :
    (StepPhysics 0 ((2 : ℚ) * physSlice)).2 ≠ 2 := by
  norm_num [StepPhysics, stepLoop, physSlice, maxPsteps]

/-! ## Surface material table (src/src/surface.c, src/include/surface.h) -/

/-- `SurfaceType` enumeration (surface.h). -/
inductive SurfaceType : Type
  | wood
  | metal
  | ice
  | rubber
  | earth
deriving DecidableEq

/-- `SurfaceMaterial` (surface.h): five scalar coefficients.  The C
`float` literals are carried as exact decimals. -/
structure SurfaceMaterial where
  friction : ℚ
  bounce : ℚ
  bounce_vel : ℚ
  slip1 : ℚ
  slip2 : ℚ
deriving DecidableEq

/-- The statically initialized `gSurfaces` table (surface.c:26-72). -/
def gSurfaces : SurfaceType → SurfaceMaterial
  | .wood   => ⟨26/10, 2/100, 1/10, 1/1000, 1/1000⟩
  | .metal  => ⟨28/10, 5/1000, 5/100, 1/1000, 1/1000⟩
  | .ice    => ⟨4/10, 0, 0, 5/100, 5/100⟩
  | .rubber => ⟨28/10, 85/100, 1/10, 5/10000, 5/10000⟩
  | .earth  => ⟨29/10, 5/100, 1/10, 5/10000, 5/10000⟩

/-! ## Collision resolver (src/src/collision.c, nearCallback) -/

/-- `#define MAX_CONTACTS 8` (collision.c:41). -/
def MAX_CONTACTS : Nat := 8

/-- The part of `geomInfo` (raylibODE.h) that `nearCallback` and the
contact-synthesis claims read: the collidable flag, the optional
trigger callback (identified here by a number standing for the C
function pointer), and the optional surface-material reference that
callers assign (e.g. raylibODE.c:1093, examples/surfaces.c:55). -/
structure GeomInfo where
  collidable : Bool
  triggerOnCollide : Option Nat
  surface : Option SurfaceType
deriving DecidableEq

/-- `gi && gi->triggerOnCollide` read on an optional metadata pointer. -/
def giTrigger : Option GeomInfo → Option Nat
  | none => none
  | some g => g.triggerOnCollide

/-- `gi && !gi->collidable` read on an optional metadata pointer. -/
def giNonCollidable : Option GeomInfo → Bool
  | none => false
  | some g => !g.collidable

/-- The `surface.mode` flag word assembled at collision.c:74-75,
modelled as one boolean per ODE contact flag. -/
structure ContactMode where
  slip1 : Bool
  slip2 : Bool
  softERP : Bool
  softCFM : Bool
  approx1 : Bool
  bounce : Bool
deriving DecidableEq

/-- One synthesized `dSurfaceParameters` record. -/
structure ContactSurface where
  mode : ContactMode
  mu : ℚ
  slip1 : ℚ
  slip2 : ℚ
  soft_erp : ℚ
  soft_cfm : ℚ
  bounce : ℚ
  bounce_vel : ℚ
deriving DecidableEq

/-- The contact specification written for every contact point at
collision.c:74-83: `dContactSlip1 | dContactSlip2 | dContactSoftERP |
dContactSoftCFM | dContactApprox1`, `mu = 1000`, `slip1 = slip2 =
0.0001`, `soft_erp = 0.1`, `soft_cfm = 0.001`, `bounce = 0.001`,
`bounce_vel = 0.001`.  All constants are fixed; no field of either
shape's material is read. -/
def contactSurfaceParams : ContactSurface where
  mode := ⟨true, true, true, true, true, false⟩
  mu := 1000
  slip1 := 1/10000
  slip2 := 1/10000
  soft_erp := 1/10
  soft_cfm := 1/1000
  bounce := 1/1000
  bounce_vel := 1/1000

/-- Observable effects of one `nearCallback` invocation: the trigger
callbacks fired (callback id, trigger shape, other shape) and the
contact constraints added to the contact joint group. -/
structure NearOut where
  triggerCalls : List (Nat × Nat × Nat)
  contacts : List ContactSurface
deriving DecidableEq

/-- `void nearCallback(void *data, dGeomID o1, dGeomID o2)`
(collision.c:43-89).  `connectedExcluding` stands for
`b1 && b2 && dAreConnectedExcluding(b1, b2, dJointTypeContact)`;
`overlap` is the number of contact points the narrow phase would report
for the pair, which `dCollide` caps at `MAX_CONTACTS`. -/
def nearCallback (connectedExcluding : Bool) (o1 o2 : Nat)
    (gi1 gi2 : Option GeomInfo) (overlap : Nat) : NearOut :=
  if connectedExcluding then ⟨[], []⟩
  else
    match giTrigger gi1 with
    | some cb => ⟨[(cb, o1, o2)], []⟩
    | none =>
      match giTrigger gi2 with
      | some cb => ⟨[(cb, o2, o1)], []⟩
      | none =>
        if giNonCollidable gi1 then ⟨[], []⟩
        else if giNonCollidable gi2 then ⟨[], []⟩
        else ⟨[], List.replicate (min overlap MAX_CONTACTS) contactSurfaceParams⟩

/-- C4 (corrected): provided the pair is not discarded by the
connected-bodies exclusion at collision.c:48, a pair where either
shape's metadata defines a trigger callback fires exactly one callback
— the first found in shape order, with arguments
(triggerShape, otherShape) — and creates no contact constraint. -/
theorem C4_trigger_dispatch (o1 o2 : Nat) (gi1 gi2 : Option GeomInfo)
    (overlap : Nat)
    (h : (giTrigger gi1).isSome ∨ (giTrigger gi2).isSome) :
    (nearCallback false o1 o2 gi1 gi2 overlap).contacts = [] ∧
      (nearCallback false o1 o2 gi1 gi2 overlap).triggerCalls =
        (match giTrigger gi1 with
          | some cb => [(cb, o1, o2)]
          | none =>
            match giTrigger gi2 with
            | some cb => [(cb, o2, o1)]
            | none => []) ∧
      (nearCallback false o1 o2 gi1 gi2 overlap).triggerCalls.length = 1 := by
  unfold nearCallback
  rcases h1 : giTrigger gi1 with _ | cb1
  · rcases h2 : giTrigger gi2 with _ | cb2
    · rw [h1, h2] at h
      simp at h
    · simp [h1, h2]
  · simp [h1]

/-- Witness for C4's amended theorem: shape 1 carries trigger callback
7; the callback fires once as (shape1, shape2) and no contact is made
despite 5 overlap points. -/
theorem C4_trigger_dispatch_witness :
    ((giTrigger (some ⟨true, some 7, none⟩)).isSome ∨
        (giTrigger (none : Option GeomInfo)).isSome) ∧
      ((nearCallback false 1 2 (some ⟨true, some 7, none⟩) none 5).contacts = [] ∧
        (nearCallback false 1 2 (some ⟨true, some 7, none⟩) none 5).triggerCalls =
          (match giTrigger (some ⟨true, some 7, none⟩) with
            | some cb => [(cb, 1, 2)]
            | none =>
              match giTrigger (none : Option GeomInfo) with
              | some cb => [(cb, 2, 1)]
              | none => []) ∧
        (nearCallback false 1 2 (some ⟨true, some 7, none⟩) none 5).triggerCalls.length = 1) :=
  ⟨Or.inl rfl, C4_trigger_dispatch 1 2 (some ⟨true, some 7, none⟩) none 5 (Or.inl rfl)⟩

/-- C4 counterexample: when the two bodies are joined by a non-contact
constraint (`dAreConnectedExcluding` true), collision.c:48 returns
before the trigger checks, so a pair whose first shape defines a
trigger callback fires zero callbacks — not exactly one as claimed. -/
theorem C4_counterexample :
    (giTrigger (some ⟨true, some 7, none⟩)).isSome = true ∧
      (nearCallback true 1 2 (some ⟨true, some 7, none⟩) (some ⟨true, none, none⟩) 5).triggerCalls.length = 0 :=
  ⟨rfl, rfl⟩

/-- C5 (confirmed): a pair where neither metadata defines a trigger
callback and either shape's metadata marks it non-collidable creates
zero contact constraints, whatever the connectivity and overlap. -/
theorem C5_noncollidable (connectedExcluding : Bool) (o1 o2 : Nat)
    (gi1 gi2 : Option GeomInfo) (overlap : Nat)
    (ht1 : giTrigger gi1 = none) (ht2 : giTrigger gi2 = none)
    (h : giNonCollidable gi1 = true ∨ giNonCollidable gi2 = true) :
    (nearCallback connectedExcluding o1 o2 gi1 gi2 overlap).contacts = [] := by
  unfold nearCallback
  rcases connectedExcluding with _ | _
  · rcases h with h | h <;> simp [ht1, ht2, h]
  · simp

/-- Witness for C5: a non-collidable first shape against plain metadata
produces no contacts. -/
theorem C5_noncollidable_witness :
    giTrigger (some ⟨false, none, none⟩) = none ∧
      giTrigger (some ⟨true, none, none⟩) = none ∧
      (giNonCollidable (some ⟨false, none, none⟩) = true ∨
        giNonCollidable (some ⟨true, none, none⟩) = true) ∧
      (nearCallback false 1 2 (some ⟨false, none, none⟩) (some ⟨true, none, none⟩) 4).contacts = [] :=
  ⟨rfl, rfl, Or.inl rfl,
    C5_noncollidable false 1 2 (some ⟨false, none, none⟩) (some ⟨true, none, none⟩) 4
      rfl rfl (Or.inl rfl)⟩

/-- C6 (corrected): for a physically resolved pair the synthesized
contact specification is a fixed record — very high friction
(`mu = 1000`), low restitution (`bounce = 0.001`), slip and
soft-constraint flags enabled — but its slip and softness coefficients
are the constants `slip1 = slip2 = 0.0001`, `soft_erp = 0.1`,
`soft_cfm = 0.001`, identical for every contact and independent of
either shape's material: `nearCallback` never reads the metadata's
`surface` field. -/
theorem C6_contact_synthesis (o1 o2 : Nat) (s1 s2 : Option SurfaceType)
    (overlap : Nat) :
    (nearCallback false o1 o2 (some ⟨true, none, s1⟩) (some ⟨true, none, s2⟩) overlap).contacts =
        List.replicate (min overlap MAX_CONTACTS) contactSurfaceParams ∧
      contactSurfaceParams.mode.slip1 = true ∧
      contactSurfaceParams.mode.slip2 = true ∧
      contactSurfaceParams.mode.softERP = true ∧
      contactSurfaceParams.mode.softCFM = true ∧
      contactSurfaceParams.mu = 1000 ∧
      contactSurfaceParams.bounce = 1/1000 ∧
      contactSurfaceParams.slip1 = 1/10000 ∧
      contactSurfaceParams.soft_erp = 1/10 ∧
      contactSurfaceParams.soft_cfm = 1/1000 := by
  refine ⟨?_, rfl, rfl, rfl, rfl, rfl, rfl, rfl, rfl, rfl⟩
  simp [nearCallback, giTrigger, giNonCollidable]

/-- C6 counterexample: an all-ice pair and an all-rubber pair produce
byte-identical contact specifications, and the common slip coefficient
(0.0001) differs from both materials' slip coefficients (ice 0.05,
rubber 0.0005) — the materials' slip and softness parameters do not
take effect in the created contact constraint. -/
theorem C6_counterexample :
    (nearCallback false 1 2 (some ⟨true, none, some SurfaceType.ice⟩)
          (some ⟨true, none, some SurfaceType.ice⟩) 1) =
        (nearCallback false 1 2 (some ⟨true, none, some SurfaceType.rubber⟩)
          (some ⟨true, none, some SurfaceType.rubber⟩) 1) ∧
      (nearCallback false 1 2 (some ⟨true, none, some SurfaceType.ice⟩)
          (some ⟨true, none, some SurfaceType.ice⟩) 1).contacts =
        [contactSurfaceParams] ∧
      contactSurfaceParams.slip1 ≠ (gSurfaces SurfaceType.ice).slip1 ∧
      contactSurfaceParams.slip1 ≠ (gSurfaces SurfaceType.rubber).slip1 := by
  refine ⟨rfl, ?_, ?_, ?_⟩
  · simp [nearCallback, giTrigger, giNonCollidable, MAX_CONTACTS]
  · norm_num [contactSurfaceParams, gSurfaces]
  · norm_num [contactSurfaceParams, gSurfaces]

/-! ## Intrusive doubly linked list (src/src/clist.c)

Nodes are heap cells addressed by natural numbers; the heap is an
association list from address to cell, `NULL` is `Option.none`.
Allocation hands out strictly increasing fresh addresses, and deletion
removes the cell, mirroring `malloc`/`free`. -/

/-- `cnode_t`: back link, forward link, payload (`void* data`,
modelled as a number). -/
structure CNode where
  prev : Option Nat
  next : Option Nat
  data : Nat
deriving DecidableEq

/-- The node store. -/
abbrev Heap := List (Nat × CNode)

/-- Dereference an address. -/
def hlookup : Heap → Nat → Option CNode
  | [], _ => none
  | (b, n) :: h, a => if b = a then some n else hlookup h a

/-- In-place field update of the cell at address `a`. -/
def hupdate : Heap → Nat → (CNode → CNode) → Heap
  | [], _, _ => []
  | (b, n) :: h, a, f =>
    if b = a then (b, f n) :: hupdate h a f else (b, n) :: hupdate h a f

/-- `free` of the cell at address `a`. -/
def hremove : Heap → Nat → Heap
  | [], _ => []
  | (b, n) :: h, a =>
    if b = a then hremove h a else (b, n) :: hremove h a

/-- Addresses currently allocated. -/
def heapKeys (h : Heap) : List Nat := h.map Prod.fst

/-- `clist_t` together with its allocator state. -/
structure clist where
  heap : Heap
  head : Option Nat
  tail : Option Nat
  fresh : Nat
deriving DecidableEq

/-- `clistCreateList` (clist.c:18-33): empty head and tail. -/
def clistCreateList : clist := ⟨[], none, none, 0⟩

/-- `clistAddNode` (clist.c:47-66): allocate a node with
`prev = list->tail`, `next = NULL`; if `prev` is non-null point its
`next` at the new node; if the list had no head the new node becomes
head; the new node becomes tail.  Returns the updated list and the new
node's address. -/
def clistAddNode (s : clist) (data : Nat) : clist × Nat :=
  let a := s.fresh
  let node : CNode := ⟨s.tail, none, data⟩
  let h1 : Heap := (a, node) :: s.heap
  let h2 : Heap :=
    match s.tail with
    | some t => hupdate h1 t fun n => { n with next := some a }
    | none => h1
  let head' :=
    match s.head with
    | none => some a
    | some x => some x
  (⟨h2, head', some a, a + 1⟩, a)

/-- `clistDeleteNode` (clist.c:146-164): splice the node's neighbours
around it, fix `head`/`tail` if they pointed at it, free it.  (The C
version additionally nulls the caller's pointer.)  Deleting an address
that is not allocated is modelled as a no-op; the C contract never does
it. -/
def clistDeleteNode (s : clist) (a : Nat) : clist :=
  match hlookup s.heap a with
  | none => s
  | some node =>
    let h1 : Heap :=
      match node.prev with
      | some p => hupdate s.heap p fun n => { n with next := node.next }
      | none => s.heap
    let h2 : Heap :=
      match node.next with
      | some q => hupdate h1 q fun n => { n with prev := node.prev }
      | none => h1
    let head' := if s.head = some a then node.next else s.head
    let tail' := if s.tail = some a then node.prev else s.tail
    ⟨hremove h2 a, head', tail', s.fresh⟩

/-- Forward pointer walk (the `while (node != NULL) node = node->next`
idiom), fueled; the fuel never runs out on a well-formed list. -/
def fwdFrom (h : Heap) : Nat → Option Nat → List Nat
  | 0, _ => []
  | _+1, none => []
  | fuel+1, some a =>
    match hlookup h a with
    | some n => a :: fwdFrom h fuel n.next
    | none => [a]

/-- Backward pointer walk from the tail. -/
def bwdFrom (h : Heap) : Nat → Option Nat → List Nat
  | 0, _ => []
  | _+1, none => []
  | fuel+1, some a =>
    match hlookup h a with
    | some n => a :: bwdFrom h fuel n.prev
    | none => [a]

/-- The node addresses visited front-to-back from `head`. -/
def clistForward (s : clist) : List Nat := fwdFrom s.heap s.heap.length s.head

/-- The node addresses visited back-to-front from `tail`. -/
def clistBackward (s : clist) : List Nat := bwdFrom s.heap s.heap.length s.tail

/-- The counting loop of `clistTotal` (clist.c:317-327). -/
def clistTotalAux (h : Heap) : Nat → Option Nat → Nat
  | 0, _ => 0
  | _+1, none => 0
  | fuel+1, some a =>
    match hlookup h a with
    | some n => clistTotalAux h fuel n.next + 1
    | none => 1

/-- `clistTotal` (clist.c:317-327). -/
def clistTotal (s : clist) : Nat := clistTotalAux s.heap s.heap.length s.head

/-- The search loop of `clistFindNode` (clist.c:119-131). -/
def clistFindAux (h : Heap) : Nat → Option Nat → Nat → Option Nat
  | 0, _, _ => none
  | _+1, none, _ => none
  | fuel+1, some a, ptr =>
    match hlookup h a with
    | some n => if n.data = ptr then some a else clistFindAux h fuel n.next ptr
    | none => none

/-- `clistFindNode` (clist.c:119-131): first node whose payload equals
`ptr`, else `NULL`. -/
def clistFindNode (s : clist) (ptr : Nat) : Option Nat :=
  clistFindAux s.heap s.heap.length s.head ptr

/-- `ChainSeg h p cur xs out` says: starting with incoming back link
`p` and cursor `cur`, the addresses `xs` form a consecutive, correctly
doubly linked segment in `h`, and after consuming it the back link and
cursor are `out`.  A whole list is `ChainSeg h none head xs (tail,
none)`: head reached first, tail is the last node, last `next` is
`NULL`; for the empty list this forces `head = tail = NULL`. -/
def ChainSeg (h : Heap) : Option Nat → Option Nat → List Nat → Option Nat × Option Nat → Prop
  | p, cur, [], out => out = (p, cur)
  | p, cur, b :: ys, out =>
    cur = some b ∧ ∃ n, hlookup h b = some n ∧ n.prev = p ∧ ChainSeg h (some b) n.next ys out

/-- Well-formedness of a list state: its nodes are `xs` in order,
distinct, all allocated below the allocation counter, with no duplicate
heap addresses. -/
structure Wf (s : clist) (xs : List Nat) : Prop where
  seg : ChainSeg s.heap none s.head xs (s.tail, none)
  nodup : xs.Nodup
  nodupKeys : (heapKeys s.heap).Nodup
  keysBound : ∀ a ∈ heapKeys s.heap, a < s.fresh

/-! ### Heap lemmas -/

theorem hlookup_mem_keys {h : Heap} {a : Nat} {n : CNode}
    (hl : hlookup h a = some n) : a ∈ heapKeys h := by
  induction h with
  | nil => simp [hlookup] at hl
  | cons e h ih =>
    obtain ⟨b, m⟩ := e
    by_cases hba : b = a
    · subst hba; simp [heapKeys]
    · simp only [hlookup, if_neg hba] at hl
      simp [heapKeys] at ih ⊢
      exact Or.inr (ih hl)

theorem heapKeys_hupdate (h : Heap) (a : Nat) (f : CNode → CNode) :
    heapKeys (hupdate h a f) = heapKeys h := by
  induction h with
  | nil => rfl
  | cons e h ih =>
    obtain ⟨b, m⟩ := e
    by_cases hba : b = a <;> simp [heapKeys, hupdate, hba] at ih ⊢ <;> exact ih

theorem hlookup_hupdate (h : Heap) (a b : Nat) (f : CNode → CNode) :
    hlookup (hupdate h a f) b =
      if a = b then (hlookup h b).map f else hlookup h b := by
  induction h with
  | nil => simp [hlookup, hupdate]
  | cons e h ih =>
    obtain ⟨c, m⟩ := e
    by_cases hca : c = a
    · subst hca
      by_cases hcb : c = b
      · subst hcb
        simp [hlookup, hupdate]
      · simp [hlookup, hupdate, hcb, ih]
    · by_cases hcb : c = b
      · subst hcb
        have hab : ¬ a = c := fun hh => hca hh.symm
        simp [hlookup, hupdate, hca, hab]
      · simp [hlookup, hupdate, hca, hcb, ih]

theorem hlookup_hremove (h : Heap) (a b : Nat) :
    hlookup (hremove h a) b = if a = b then none else hlookup h b := by
  induction h with
  | nil => simp [hlookup, hremove]
  | cons e h ih =>
    obtain ⟨c, m⟩ := e
    by_cases hca : c = a
    · subst hca
      by_cases hcb : c = b
      · subst hcb
        simp [hremove, ih]
      · simp [hlookup, hremove, hcb, ih]
    · by_cases hcb : c = b
      · subst hcb
        have hab : ¬ a = c := fun hh => hca hh.symm
        simp [hlookup, hremove, hca, hab]
      · simp [hlookup, hremove, hca, hcb, ih]

theorem heapKeys_hremove_sublist (h : Heap) (a : Nat) :
    (heapKeys (hremove h a)).Sublist (heapKeys h) := by
  induction h with
  | nil => simp [heapKeys, hremove]
  | cons e h ih =>
    obtain ⟨c, m⟩ := e
    by_cases hca : c = a
    · simp only [hremove, if_pos hca, heapKeys, List.map]
      exact ih.cons _
    · simp only [hremove, if_neg hca, heapKeys, List.map]
      exact ih.cons₂ _

theorem hlookup_cons_ne (h : Heap) (a b : Nat) (n : CNode) (hne : a ≠ b) :
    hlookup ((a, n) :: h) b = hlookup h b := by
  simp [hlookup, hne]

/-! ### Chain-segment lemmas -/

theorem seg_frame {h h' : Heap} :
    ∀ (xs : List Nat) (p cur : Option Nat) (out : Option Nat × Option Nat),
      (∀ b ∈ xs, hlookup h' b = hlookup h b) →
      ChainSeg h p cur xs out → ChainSeg h' p cur xs out := by
  intro xs
  induction xs with
  | nil => intro p cur out _ hs; exact hs
  | cons b ys ih =>
    intro p cur out hagree hs
    obtain ⟨hcur, n, hlk, hprev, hrest⟩ := hs
    refine ⟨hcur, n, ?_, hprev, ?_⟩
    · rw [hagree b (by simp), hlk]
    · exact ih (some b) n.next out (fun c hc => hagree c (by simp [hc])) hrest

theorem seg_append_split {h : Heap} :
    ∀ (u : List Nat) (p cur : Option Nat) (v : List Nat)
      (out : Option Nat × Option Nat),
      ChainSeg h p cur (u ++ v) out →
      ∃ mid, ChainSeg h p cur u mid ∧ ChainSeg h mid.1 mid.2 v out := by
  intro u
  induction u with
  | nil => intro p cur v out hs; exact ⟨(p, cur), rfl, hs⟩
  | cons b ys ih =>
    intro p cur v out hs
    obtain ⟨hcur, n, hlk, hprev, hrest⟩ := hs
    obtain ⟨mid, h1, h2⟩ := ih (some b) n.next v out hrest
    exact ⟨mid, ⟨hcur, n, hlk, hprev, h1⟩, h2⟩

theorem seg_append_join {h : Heap} :
    ∀ (u : List Nat) (p cur : Option Nat) (v : List Nat)
      (mid out : Option Nat × Option Nat),
      ChainSeg h p cur u mid → ChainSeg h mid.1 mid.2 v out →
      ChainSeg h p cur (u ++ v) out := by
  intro u
  induction u with
  | nil =>
    intro p cur v mid out hu hv
    have : mid = (p, cur) := hu
    rw [this] at hv
    exact hv
  | cons b ys ih =>
    intro p cur v mid out hu hv
    obtain ⟨hcur, n, hlk, hprev, hrest⟩ := hu
    exact ⟨hcur, n, hlk, hprev, ih (some b) n.next v mid out hrest hv⟩

theorem seg_out_fst {h : Heap} :
    ∀ (xs : List Nat) (p cur : Option Nat) (out : Option Nat × Option Nat),
      ChainSeg h p cur xs out → out.1 = xs.getLast?.or p := by
  intro xs
  induction xs with
  | nil =>
    intro p cur out hs
    have : out = (p, cur) := hs
    simp [this]
  | cons b ys ih =>
    intro p cur out hs
    obtain ⟨hcur, n, hlk, hprev, hrest⟩ := hs
    have h1 := ih (some b) n.next out hrest
    cases ys with
    | nil => simpa using h1
    | cons c zs =>
      rw [List.getLast?_cons_cons]
      rw [h1]
      have : (c :: zs).getLast? = some ((c :: zs).getLast (by simp)) :=
        List.getLast?_eq_getLast _ _
      simp [this, Option.or]

theorem seg_mem_lookup {h : Heap} :
    ∀ (xs : List Nat) (p cur : Option Nat) (out : Option Nat × Option Nat)
      (b : Nat), ChainSeg h p cur xs out → b ∈ xs →
      ∃ n, hlookup h b = some n := by
  intro xs
  induction xs with
  | nil => intro p cur out b _ hb; simp at hb
  | cons c ys ih =>
    intro p cur out b hs hb
    obtain ⟨hcur, n, hlk, hprev, hrest⟩ := hs
    rcases List.mem_cons.mp hb with hb | hb
    · exact ⟨n, hb ▸ hlk⟩
    · exact ih (some c) n.next out b hrest hb

/-- Re-pointing the `next` field of the last node of a nonempty segment
(and touching nothing else in it) yields the same segment with the
outgoing cursor replaced. -/
theorem seg_retarget_last {h h' : Heap} (t : Nat) (newCur : Option Nat) :
    ∀ (u : List Nat) (p cur : Option Nat) (curOld : Option Nat),
      ChainSeg h p cur u (some t, curOld) → u ≠ [] → u.Nodup →
      (∀ b ∈ u, b ≠ t → hlookup h' b = hlookup h b) →
      (∀ n, hlookup h t = some n → hlookup h' t = some { n with next := newCur }) →
      ChainSeg h' p cur u (some t, newCur) := by
  intro u
  induction u with
  | nil => intro p cur curOld _ hne _ _ _; exact absurd rfl hne
  | cons b ys ih =>
    intro p cur curOld hs _ hnd hagree ht
    obtain ⟨hcur, n, hlk, hprev, hrest⟩ := hs
    cases ys with
    | nil =>
      have hout : ((some t : Option Nat), curOld) = (some b, n.next) := hrest
      have hbt : b = t := by
        have := congrArg Prod.fst hout
        simpa using this.symm
      subst hbt
      exact ⟨hcur, { n with next := newCur }, ht n hlk, hprev, rfl⟩
    | cons c zs =>
      have htmem : t ∈ c :: zs := by
        have := seg_out_fst (c :: zs) (some b) n.next (some t, curOld) hrest
        have hgl : (c :: zs).getLast? = some ((c :: zs).getLast (by simp)) :=
          List.getLast?_eq_getLast _ _
        simp only [hgl, Option.or] at this
        have : t = (c :: zs).getLast (by simp) := by
          simpa using this
        rw [this]
        exact List.getLast_mem _
      have hbt : b ≠ t := by
        intro hbt
        subst hbt
        exact (List.nodup_cons.mp hnd).1 htmem
      refine ⟨hcur, n, ?_, hprev, ?_⟩
      · rw [hagree b (by simp) hbt, hlk]
      · exact ih (some b) n.next curOld hrest (by simp) (List.nodup_cons.mp hnd).2
          (fun d hd hdt => hagree d (by simp [hd]) hdt) ht

/-! ### Traversal lemmas -/

theorem bwdFrom_none (h : Heap) : ∀ fuel, bwdFrom h fuel none = [] := by
  intro fuel; cases fuel <;> rfl

theorem fwd_of_seg {h : Heap} :
    ∀ (xs : List Nat) (p cur : Option Nat) (t : Option Nat),
      ChainSeg h p cur xs (t, none) → ∀ fuel, xs.length ≤ fuel →
      fwdFrom h fuel cur = xs := by
  intro xs
  induction xs with
  | nil =>
    intro p cur t hs fuel _
    have hc : cur = none := by
      have : ((t : Option Nat), (none : Option Nat)) = (p, cur) := hs
      exact (congrArg Prod.snd this).symm
    rw [hc]
    cases fuel <;> rfl
  | cons b ys ih =>
    intro p cur t hs fuel hfuel
    obtain ⟨hcur, n, hlk, hprev, hrest⟩ := hs
    obtain ⟨f, rfl⟩ : ∃ f, fuel = f + 1 := ⟨fuel - 1, by simp at hfuel; omega⟩
    rw [hcur]
    show fwdFrom h (f + 1) (some b) = b :: ys
    simp only [fwdFrom, hlk]
    rw [ih (some b) n.next t hrest f (by simp at hfuel; omega)]

theorem bwd_of_seg {h : Heap} :
    ∀ (xs : List Nat) (p cur : Option Nat) (out : Option Nat × Option Nat),
      ChainSeg h p cur xs out → xs ≠ [] → ∀ fuel, xs.length ≤ fuel →
      bwdFrom h fuel out.1 = xs.reverse ++ bwdFrom h (fuel - xs.length) p := by
  intro xs
  induction xs with
  | nil => intro _ _ _ _ hne; exact absurd rfl hne
  | cons b ys ih =>
    intro p cur out hs _ fuel hfuel
    obtain ⟨hcur, n, hlk, hprev, hrest⟩ := hs
    cases ys with
    | nil =>
      have hout : out = (some b, n.next) := (hrest : out = _)
      obtain ⟨f, rfl⟩ : ∃ f, fuel = f + 1 := ⟨fuel - 1, by simp at hfuel; omega⟩
      rw [hout]
      show bwdFrom h (f + 1) (some b) = [b].reverse ++ bwdFrom h (f + 1 - 1) p
      simp only [fwdFrom, bwdFrom, hlk, hprev]
      simp
    | cons c zs =>
      have h1 := ih (some b) n.next out hrest (by simp) fuel
        (by simp at hfuel ⊢; omega)
      rw [h1]
      have hlen : fuel - (c :: zs).length = (fuel - (b :: c :: zs).length) + 1 := by
        simp at hfuel ⊢
        omega
      rw [hlen]
      show (c :: zs).reverse ++ bwdFrom h _ (some b) =
        (b :: c :: zs).reverse ++ bwdFrom h _ p
      simp only [bwdFrom, hlk, hprev]
      simp

theorem total_eq_length (h : Heap) :
    ∀ (fuel : Nat) (cur : Option Nat),
      clistTotalAux h fuel cur = (fwdFrom h fuel cur).length := by
  intro fuel
  induction fuel with
  | zero => intro cur; rfl
  | succ f ih =>
    intro cur
    cases cur with
    | none => rfl
    | some a =>
      show clistTotalAux h (f + 1) (some a) = (fwdFrom h (f + 1) (some a)).length
      simp only [clistTotalAux, fwdFrom]
      cases hlk : hlookup h a with
      | none => rfl
      | some n => simp [ih n.next]

theorem find_none_of_seg {h : Heap} (d : Nat) :
    ∀ (xs : List Nat) (p cur : Option Nat) (t : Option Nat),
      ChainSeg h p cur xs (t, none) →
      (∀ b ∈ xs, ∀ n, hlookup h b = some n → n.data ≠ d) →
      ∀ fuel, xs.length ≤ fuel → clistFindAux h fuel cur d = none := by
  intro xs
  induction xs with
  | nil =>
    intro p cur t hs _ fuel _
    have hc : cur = none := by
      have : ((t : Option Nat), (none : Option Nat)) = (p, cur) := hs
      exact (congrArg Prod.snd this).symm
    rw [hc]
    cases fuel <;> rfl
  | cons b ys ih =>
    intro p cur t hs hd fuel hfuel
    obtain ⟨hcur, n, hlk, hprev, hrest⟩ := hs
    obtain ⟨f, rfl⟩ : ∃ f, fuel = f + 1 := ⟨fuel - 1, by simp at hfuel; omega⟩
    rw [hcur]
    show clistFindAux h (f + 1) (some b) d = none
    simp only [clistFindAux, hlk]
    rw [if_neg (hd b (by simp) n hlk)]
    exact ih (some b) n.next t hrest (fun c hc => hd c (by simp [hc])) f
      (by simp at hfuel; omega)

/-! ### Consequences of well-formedness -/

theorem Wf.length_le {s : clist} {xs : List Nat} (w : Wf s xs) :
    xs.length ≤ s.heap.length := by
  have hsub : xs ⊆ heapKeys s.heap := by
    intro b hb
    obtain ⟨n, hn⟩ := seg_mem_lookup xs none s.head (s.tail, none) b w.seg hb
    exact hlookup_mem_keys hn
  have := (List.subperm_of_subset w.nodup hsub).length_le
  simpa [heapKeys] using this

theorem Wf.forward_eq {s : clist} {xs : List Nat} (w : Wf s xs) :
    clistForward s = xs :=
  fwd_of_seg xs none s.head s.tail w.seg s.heap.length w.length_le

theorem Wf.backward_eq {s : clist} {xs : List Nat} (w : Wf s xs) :
    clistBackward s = xs.reverse := by
  cases hxs : xs with
  | nil =>
    have hseg := w.seg
    rw [hxs] at hseg
    have : ((s.tail : Option Nat), (none : Option Nat)) = (none, s.head) := hseg
    have ht : s.tail = none := congrArg Prod.fst this
    unfold clistBackward
    rw [ht, bwdFrom_none]
    rfl
  | cons b ys =>
    have hseg := w.seg
    rw [hxs] at hseg
    have h1 := bwd_of_seg (b :: ys) none s.head (s.tail, none) hseg (by simp)
      s.heap.length (by rw [← hxs]; exact w.length_le)
    unfold clistBackward
    rw [h1, bwdFrom_none]
    simp

theorem Wf.total_eq {s : clist} {xs : List Nat} (w : Wf s xs) :
    clistTotal s = xs.length := by
  unfold clistTotal
  rw [total_eq_length]
  rw [show fwdFrom s.heap s.heap.length s.head = clistForward s from rfl,
    w.forward_eq]

theorem Wf.head_none_iff {s : clist} {xs : List Nat} (w : Wf s xs) :
    s.head = none ↔ xs = [] := by
  cases hxs : xs with
  | nil =>
    have hseg := w.seg
    rw [hxs] at hseg
    have : ((s.tail : Option Nat), (none : Option Nat)) = (none, s.head) := hseg
    have := congrArg Prod.snd this
    simp_all
  | cons b ys =>
    have hseg := w.seg
    rw [hxs] at hseg
    obtain ⟨hcur, _⟩ := hseg
    simp [hcur]

theorem Wf.tail_none_iff {s : clist} {xs : List Nat} (w : Wf s xs) :
    s.tail = none ↔ xs = [] := by
  cases hxs : xs with
  | nil =>
    have hseg := w.seg
    rw [hxs] at hseg
    have : ((s.tail : Option Nat), (none : Option Nat)) = (none, s.head) := hseg
    have := congrArg Prod.fst this
    simp_all
  | cons b ys =>
    have hseg := w.seg
    rw [hxs] at hseg
    have := seg_out_fst (b :: ys) none s.head (s.tail, none) hseg
    have hgl : (b :: ys).getLast? = some ((b :: ys).getLast (by simp)) :=
      List.getLast?_eq_getLast _ _
    simp only [hgl, Option.or] at this
    simp [this]

/-! ### Operations preserve well-formedness -/

theorem Wf.mem_ne_fresh {s : clist} {xs : List Nat} (w : Wf s xs) {b : Nat}
    (hb : b ∈ xs) : b ≠ s.fresh := by
  obtain ⟨n, hn⟩ := seg_mem_lookup xs none s.head (s.tail, none) b w.seg hb
  have := w.keysBound b (hlookup_mem_keys hn)
  omega

theorem Wf_add {s : clist} {xs : List Nat} (w : Wf s xs) (d : Nat) :
    Wf (clistAddNode s d).1 (xs ++ [s.fresh]) := by
  have hfresh_keys : s.fresh ∉ heapKeys s.heap := by
    intro hmem
    have := w.keysBound s.fresh hmem
    omega
  cases htail : s.tail with
  | none =>
    have hxs : xs = [] := w.tail_none_iff.mp htail
    have hhead : s.head = none := w.head_none_iff.mpr hxs
    subst hxs
    simp only [clistAddNode, htail, hhead]
    refine ⟨⟨rfl, ⟨none, none, d⟩, ?_, rfl, rfl⟩, by simp, ?_, ?_⟩
    · simp [hlookup]
    · have hk : heapKeys ((s.fresh, (⟨none, none, d⟩ : CNode)) :: s.heap) =
        s.fresh :: heapKeys s.heap := rfl
      rw [hk]
      exact List.nodup_cons.mpr ⟨hfresh_keys, w.nodupKeys⟩
    · intro b hb
      have hk : heapKeys ((s.fresh, (⟨none, none, d⟩ : CNode)) :: s.heap) =
        s.fresh :: heapKeys s.heap := rfl
      rw [hk] at hb
      rcases List.mem_cons.mp hb with hb | hb
      · show b < s.fresh + 1
        omega
      · have := w.keysBound b hb
        show b < s.fresh + 1
        omega
  | some t =>
    have hxs_ne : xs ≠ [] := by
      intro hxs
      rw [w.tail_none_iff.mpr hxs] at htail
      exact Option.noConfusion htail
    obtain ⟨y, ys, rfl⟩ : ∃ y ys, xs = y :: ys := by
      cases xs with
      | nil => exact absurd rfl hxs_ne
      | cons y ys => exact ⟨y, ys, rfl⟩
    have hhead : s.head = some y := (w.seg).1
    have ht_mem : t ∈ y :: ys := by
      have := seg_out_fst (y :: ys) none s.head (s.tail, none) w.seg
      have hgl : (y :: ys).getLast? = some ((y :: ys).getLast (by simp)) :=
        List.getLast?_eq_getLast _ _
      rw [htail] at this
      simp only [hgl, Option.or] at this
      have : t = (y :: ys).getLast (by simp) := by simpa using this
      rw [this]
      exact List.getLast_mem _
    have hta : t ≠ s.fresh := w.mem_ne_fresh ht_mem
    have hl1 : ∀ b, b ≠ s.fresh →
        hlookup ((s.fresh, (⟨some t, none, d⟩ : CNode)) :: s.heap) b =
          hlookup s.heap b := by
      intro b hb
      rw [hlookup_cons_ne]
      exact fun hh => hb hh.symm
    have hl2_other : ∀ b, b ≠ s.fresh → b ≠ t →
        hlookup (hupdate ((s.fresh, (⟨some t, none, d⟩ : CNode)) :: s.heap) t
          (fun n => { n with next := some s.fresh })) b = hlookup s.heap b := by
      intro b hba hbt
      rw [hlookup_hupdate, if_neg (fun hh => hbt hh.symm), hl1 b hba]
    have hl2_t : ∀ n, hlookup s.heap t = some n →
        hlookup (hupdate ((s.fresh, (⟨some t, none, d⟩ : CNode)) :: s.heap) t
          (fun n => { n with next := some s.fresh })) t =
          some { n with next := some s.fresh } := by
      intro n hn
      rw [hlookup_hupdate, if_pos rfl, hl1 t hta, hn]
      rfl
    have hl2_a :
        hlookup (hupdate ((s.fresh, (⟨some t, none, d⟩ : CNode)) :: s.heap) t
          (fun n => { n with next := some s.fresh })) s.fresh =
          some ⟨some t, none, d⟩ := by
      rw [hlookup_hupdate, if_neg hta]
      simp [hlookup]
    simp only [clistAddNode, htail, hhead]
    refine ⟨?_, ?_, ?_, ?_⟩
    · apply seg_append_join (y :: ys) none (some y) [s.fresh]
        (some t, some s.fresh) (some s.fresh, none)
      · apply seg_retarget_last t (some s.fresh) (y :: ys) none (some y) none
        · rw [← hhead, ← htail]
          exact w.seg
        · simp
        · exact w.nodup
        · intro b hb hbt
          exact hl2_other b (w.mem_ne_fresh hb) hbt
        · intro n hn
          exact hl2_t n hn
      · exact ⟨rfl, ⟨some t, none, d⟩, hl2_a, rfl, rfl⟩
    · refine List.Nodup.append w.nodup (by simp) ?_
      intro b hb hb'
      simp only [List.mem_singleton] at hb'
      exact (w.mem_ne_fresh hb) hb'
    · rw [heapKeys_hupdate]
      have hk : heapKeys ((s.fresh, (⟨some t, none, d⟩ : CNode)) :: s.heap) =
        s.fresh :: heapKeys s.heap := rfl
      rw [hk]
      exact List.nodup_cons.mpr ⟨hfresh_keys, w.nodupKeys⟩
    · intro b hb
      rw [heapKeys_hupdate] at hb
      have hk : heapKeys ((s.fresh, (⟨some t, none, d⟩ : CNode)) :: s.heap) =
        s.fresh :: heapKeys s.heap := rfl
      rw [hk] at hb
      rcases List.mem_cons.mp hb with hb | hb
      · show b < s.fresh + 1
        omega
      · have := w.keysBound b hb
        show b < s.fresh + 1
        omega

theorem Wf_delete {s : clist} {xs : List Nat} (w : Wf s xs) {a : Nat}
    (ha : a ∈ xs) : Wf (clistDeleteNode s a) (xs.erase a) := by
  obtain ⟨u, v, rfl⟩ := List.append_of_mem ha
  have hnd := w.nodup
  rw [List.nodup_append] at hnd
  obtain ⟨hu_nd, hav_nd, hdisj⟩ := hnd
  have hav : a ∉ v := (List.nodup_cons.mp hav_nd).1
  have hv_nd : v.Nodup := (List.nodup_cons.mp hav_nd).2
  have hau : a ∉ u := fun hmem => hdisj hmem (by simp)
  have herase : (u ++ a :: v).erase a = u ++ v := by
    rw [List.erase_append_right _ hau, List.erase_cons_head]
  rw [herase]
  obtain ⟨mid, Su, Sav⟩ :=
    seg_append_split u none s.head (a :: v) (s.tail, none) w.seg
  obtain ⟨hmid2, n_a, hlk_a, hprev_a, Sv⟩ := Sav
  have keys_ok : ∀ (h2 : Heap), heapKeys h2 = heapKeys s.heap →
      (heapKeys (hremove h2 a)).Nodup ∧
        ∀ b ∈ heapKeys (hremove h2 a), b < s.fresh := by
    intro h2 hk
    constructor
    · exact (hk ▸ w.nodupKeys).sublist (heapKeys_hremove_sublist h2 a)
    · intro b hb
      exact w.keysBound b (hk ▸ (heapKeys_hremove_sublist h2 a).subset hb)
  cases u with
  | nil =>
    have hmid : mid = ((none : Option Nat), s.head) := Su
    have hhead : s.head = some a := by rw [hmid] at hmid2; exact hmid2
    have hpn : n_a.prev = none := by rw [hprev_a, hmid]
    cases v with
    | nil =>
      have hout : ((s.tail : Option Nat), (none : Option Nat)) =
        (some a, n_a.next) := Sv
      have htail : s.tail = some a := congrArg Prod.fst hout
      have hnn : n_a.next = none := (congrArg Prod.snd hout).symm
      simp only [clistDeleteNode, hlk_a, hpn, hnn, hhead, htail, if_pos]
      obtain ⟨hk1, hk2⟩ := keys_ok s.heap rfl
      exact ⟨rfl, by simp, hk1, hk2⟩
    | cons q vs =>
      have htail_ne : s.tail ≠ some a := by
        have := seg_out_fst (q :: vs) (some a) n_a.next (s.tail, none) Sv
        have hgl : (q :: vs).getLast? = some ((q :: vs).getLast (by simp)) :=
          List.getLast?_eq_getLast _ _
        simp only [hgl, Option.or] at this
        have hmem : (q :: vs).getLast (by simp) ∈ q :: vs := List.getLast_mem _
        intro hh
        rw [hh] at this
        have : a = (q :: vs).getLast (by simp) := by simpa using this
        exact hav (this ▸ hmem)
      obtain ⟨hq_cur, n_q, hlk_q, hprev_q, Svs⟩ := Sv
      have haq : a ≠ q := fun hh => hav (hh ▸ List.mem_cons_self q vs)
      have hlk2 : ∀ b, b ≠ a → b ≠ q →
          hlookup (hremove (hupdate s.heap q fun n => { n with prev := none }) a) b =
            hlookup s.heap b := by
        intro b hba hbq
        rw [hlookup_hremove, if_neg (fun hh => hba hh.symm), hlookup_hupdate,
          if_neg (fun hh => hbq hh.symm)]
      have hlk2_q :
          hlookup (hremove (hupdate s.heap q fun n => { n with prev := none }) a) q =
            some { n_q with prev := none } := by
        rw [hlookup_hremove, if_neg haq, hlookup_hupdate, if_pos rfl, hlk_q]
        rfl
      simp only [clistDeleteNode, hlk_a, hpn, hq_cur, hhead, if_pos,
        if_neg htail_ne]
      refine ⟨⟨rfl, { n_q with prev := none }, hlk2_q, rfl, ?_⟩, by simp [hv_nd],
        ?_, ?_⟩
      · apply seg_frame vs (some q) n_q.next (s.tail, none) _ Svs
        intro b hb
        have hba : b ≠ a := fun hh => hav (hh ▸ List.mem_cons_of_mem q hb)
        have hbq : b ≠ q := fun hh =>
          (List.nodup_cons.mp hv_nd).1 (hh ▸ hb)
        exact hlk2 b hba hbq
      · exact (keys_ok _ (heapKeys_hupdate _ _ _)).1
      · exact (keys_ok _ (heapKeys_hupdate _ _ _)).2
  | cons w0 ws =>
    have hhead : s.head = some w0 := Su.1
    have hw0a : w0 ≠ a := fun hh => hau (hh ▸ List.mem_cons_self w0 ws)
    have hhead_ne : s.head ≠ some a := by
      rw [hhead]
      intro hh
      exact hw0a (by simpa using hh)
    have ht_last : mid.1 = some ((w0 :: ws).getLast (by simp)) := by
      have := seg_out_fst (w0 :: ws) none s.head mid Su
      have hgl : (w0 :: ws).getLast? = some ((w0 :: ws).getLast (by simp)) :=
        List.getLast?_eq_getLast _ _
      simp only [hgl, Option.or] at this
      exact this
    set t := (w0 :: ws).getLast (by simp) with ht_def
    have ht_mem : t ∈ w0 :: ws := List.getLast_mem _
    have hta : t ≠ a := fun hh => hau (hh ▸ ht_mem)
    have htv : t ∉ v := fun hh =>
      hdisj ht_mem (List.mem_cons_of_mem a hh)
    have hpt : n_a.prev = some t := by rw [hprev_a, ht_last]
    have hmid_eq : mid = (some t, some a) := by
      apply Prod.ext
      · rw [ht_last]
      · exact hmid2
    rw [hmid_eq] at Su
    cases v with
    | nil =>
      have hout : ((s.tail : Option Nat), (none : Option Nat)) =
        (some a, n_a.next) := Sv
      have htail : s.tail = some a := congrArg Prod.fst hout
      have hnn : n_a.next = none := (congrArg Prod.snd hout).symm
      have hlk1 : ∀ b, b ≠ a → b ≠ t →
          hlookup (hremove (hupdate s.heap t fun n => { n with next := none }) a) b =
            hlookup s.heap b := by
        intro b hba hbt
        rw [hlookup_hremove, if_neg (fun hh => hba hh.symm), hlookup_hupdate,
          if_neg (fun hh => hbt hh.symm)]
      have hlk1_t : ∀ n, hlookup s.heap t = some n →
          hlookup (hremove (hupdate s.heap t fun n => { n with next := none }) a) t =
            some { n with next := none } := by
        intro n hn
        rw [hlookup_hremove, if_neg (fun hh => hta hh.symm), hlookup_hupdate,
          if_pos rfl, hn]
        rfl
      simp only [clistDeleteNode, hlk_a, hpt, hnn, htail, if_pos,
        if_neg hhead_ne]
      refine ⟨?_, by simpa using hu_nd, ?_, ?_⟩
      · have hseg : ChainSeg
            (hremove (hupdate s.heap t fun n => { n with next := none }) a)
            none s.head (w0 :: ws) (some t, none) := by
          apply seg_retarget_last t none (w0 :: ws) none s.head (some a) _
            (by simp) hu_nd
          · intro b hb hbt
            exact hlk1 b (fun hh => hau (hh ▸ hb)) hbt
          · intro n hn
            exact hlk1_t n hn
          · exact Su
        simpa using hseg
      · exact (keys_ok _ (heapKeys_hupdate _ _ _)).1
      · exact (keys_ok _ (heapKeys_hupdate _ _ _)).2
    | cons q vs =>
      have htail_ne : s.tail ≠ some a := by
        have := seg_out_fst (q :: vs) (some a) n_a.next (s.tail, none) Sv
        have hgl : (q :: vs).getLast? = some ((q :: vs).getLast (by simp)) :=
          List.getLast?_eq_getLast _ _
        simp only [hgl, Option.or] at this
        have hmem : (q :: vs).getLast (by simp) ∈ q :: vs := List.getLast_mem _
        intro hh
        rw [hh] at this
        have : a = (q :: vs).getLast (by simp) := by simpa using this
        exact hav (this ▸ hmem)
      obtain ⟨hq_cur, n_q, hlk_q, hprev_q, Svs⟩ := Sv
      have haq : a ≠ q := fun hh => hav (hh ▸ List.mem_cons_self q vs)
      have htq : t ≠ q := fun hh => htv (hh ▸ List.mem_cons_self q vs)
      have hlkD : ∀ b, b ≠ a → b ≠ t → b ≠ q →
          hlookup (hremove (hupdate
            (hupdate s.heap t fun n => { n with next := some q }) q
            fun n => { n with prev := some t }) a) b = hlookup s.heap b := by
        intro b hba hbt hbq
        rw [hlookup_hremove, if_neg (fun hh => hba hh.symm), hlookup_hupdate,
          if_neg (fun hh => hbq hh.symm), hlookup_hupdate,
          if_neg (fun hh => hbt hh.symm)]
      have hlkD_t : ∀ n, hlookup s.heap t = some n →
          hlookup (hremove (hupdate
            (hupdate s.heap t fun n => { n with next := some q }) q
            fun n => { n with prev := some t }) a) t =
            some { n with next := some q } := by
        intro n hn
        rw [hlookup_hremove, if_neg (fun hh => hta hh.symm), hlookup_hupdate,
          if_neg (fun hh => htq hh.symm), hlookup_hupdate, if_pos rfl, hn]
        rfl
      have hlkD_q :
          hlookup (hremove (hupdate
            (hupdate s.heap t fun n => { n with next := some q }) q
            fun n => { n with prev := some t }) a) q =
            some { n_q with prev := some t } := by
        rw [hlookup_hremove, if_neg haq, hlookup_hupdate, if_pos rfl,
          hlookup_hupdate, if_neg htq, hlk_q]
        rfl
      simp only [clistDeleteNode, hlk_a, hpt, hq_cur, if_neg hhead_ne,
        if_neg htail_ne]
      refine ⟨?_, ?_, ?_, ?_⟩
      · apply seg_append_join (w0 :: ws) none s.head (q :: vs)
          (some t, some q) (s.tail, none)
        · apply seg_retarget_last t (some q) (w0 :: ws) none s.head (some a) _
            (by simp) hu_nd
          · intro b hb hbt
            have hba : b ≠ a := fun hh => hau (hh ▸ hb)
            have hbq : b ≠ q := fun hh =>
              hdisj hb (by rw [hh]; exact List.mem_cons_of_mem a (List.mem_cons_self q vs))
            exact hlkD b hba hbt hbq
          · intro n hn
            exact hlkD_t n hn
          · exact Su
        · refine ⟨rfl, { n_q with prev := some t }, hlkD_q, rfl, ?_⟩
          apply seg_frame vs (some q) n_q.next (s.tail, none) _ Svs
          intro b hb
          have hba : b ≠ a := fun hh => hav (hh ▸ List.mem_cons_of_mem q hb)
          have hbq : b ≠ q := fun hh =>
            (List.nodup_cons.mp hv_nd).1 (hh ▸ hb)
          have hbt : b ≠ t := fun hh => htv (hh ▸ List.mem_cons_of_mem q hb)
          exact hlkD b hba hbt hbq
      · have := w.nodup
        rw [show (w0 :: ws) ++ a :: q :: vs =
          ((w0 :: ws) ++ [a]) ++ q :: vs by simp] at this
        rw [List.nodup_append] at this
        refine List.Nodup.append hu_nd (List.nodup_cons.mp hav_nd).2 ?_
        intro b hb hb'
        exact hdisj hb (List.mem_cons_of_mem a hb')
      · exact (keys_ok _ (by rw [heapKeys_hupdate, heapKeys_hupdate])).1
      · exact (keys_ok _ (by rw [heapKeys_hupdate, heapKeys_hupdate])).2

/-! ### Operation sequences -/

/-- One registry operation of claim C7: `clistAddNode` with a payload,
or `clistDeleteNode` of the `i`-th node currently in the list (the C
caller holds a pointer to a node that is in the list; the index selects
it through the current forward traversal). -/
inductive COp : Type
  | add (d : Nat)
  | del (i : Nat)

/-- Apply one operation. -/
def runOp (s : clist) : COp → clist
  | .add d => (clistAddNode s d).1
  | .del i =>
    match (clistForward s).get? i with
    | some a => clistDeleteNode s a
    | none => s

/-- Apply a sequence of operations starting from the empty list. -/
def run (ops : List COp) : clist := ops.foldl runOp clistCreateList

theorem Wf_empty : Wf clistCreateList [] :=
  ⟨rfl, by simp, by simp [heapKeys, clistCreateList], by
    intro b hb
    simp [heapKeys, clistCreateList] at hb⟩

theorem run_wf (ops : List COp) : ∃ xs, Wf (run ops) xs := by
  suffices h : ∀ (s : clist), (∃ xs, Wf s xs) →
      ∃ ys, Wf (ops.foldl runOp s) ys from
    h clistCreateList ⟨[], Wf_empty⟩
  induction ops with
  | nil => intro s hs; exact hs
  | cons op ops ih =>
    intro s hs
    apply ih
    obtain ⟨xs, w⟩ := hs
    cases op with
    | add d => exact ⟨xs ++ [s.fresh], Wf_add w d⟩
    | del i =>
      cases hget : (clistForward s).get? i with
      | none => simp only [runOp, hget]; exact ⟨xs, w⟩
      | some a =>
        simp only [runOp, hget]
        refine ⟨xs.erase a, Wf_delete w ?_⟩
        have := List.get?_mem hget
        rwa [w.forward_eq] at this

/-- C7 (confirmed): after any sequence of append/delete operations from
the empty registry, `head` is null exactly when `tail` is null, and the
forward traversal, the backward traversal and `clistTotal` all agree in
length. -/
theorem C7_registry_invariant (ops : List COp) :
    ((run ops).head = none ↔ (run ops).tail = none) ∧
      (clistForward (run ops)).length = (clistBackward (run ops)).length ∧
      (clistBackward (run ops)).length = clistTotal (run ops) := by
  obtain ⟨xs, w⟩ := run_wf ops
  refine ⟨?_, ?_, ?_⟩
  · rw [w.head_none_iff, w.tail_none_iff]
  · rw [w.forward_eq, w.backward_eq, List.length_reverse]
  · rw [w.backward_eq, w.total_eq, List.length_reverse]

/-! ## Entity teardown (src/src/raylibODE.c, FreeBodyAndGeoms / FreeEntity) -/

/-- The geom loop of `FreeBodyAndGeoms` (raylibODE.c:781-794): walk the
body's geoms; for each, `if (gi) free(gi)`, detach, destroy.  Modelled
by its observable effect: the number of metadata blocks freed. -/
def FreeBodyAndGeoms : List (Option GeomInfo) → Nat
  | [] => 0
  | some _ :: rest => FreeBodyAndGeoms rest + 1
  | none :: rest => FreeBodyAndGeoms rest

/-- `entity` (raylibODE.h): the body, carried as its attached geoms'
metadata, and the back reference to the entity's registry node. -/
structure entity where
  geoms : List (Option GeomInfo)
  node : Nat

/-- `FreeEntity` (raylibODE.c:1066-1071): `FreeBodyAndGeoms(ent->body)`
then `clistDeleteNode(physCtx->objList, &ent->node)` then free the
record.  Returns the updated registry and the number of metadata blocks
freed. -/
def FreeEntity (objList : clist) (ent : entity) : clist × Nat :=
  (clistDeleteNode objList ent.node, FreeBodyAndGeoms ent.geoms)

theorem FreeBodyAndGeoms_all_some :
    ∀ gs : List (Option GeomInfo), (∀ g ∈ gs, g.isSome) →
      FreeBodyAndGeoms gs = gs.length := by
  intro gs
  induction gs with
  | nil => intro _; rfl
  | cons g rest ih =>
    intro hall
    cases g with
    | some gi =>
      simp only [FreeBodyAndGeoms, List.length_cons,
        ih fun x hx => hall x (List.mem_cons_of_mem _ hx)]
    | none => exact absurd (hall none (List.mem_cons_self _ _)) (by simp)

/-- C8 (confirmed): freeing an entity whose body carries `N` geoms,
each with non-null metadata, frees exactly `N` metadata blocks, removes
exactly the entity's node from the live registry, and decreases the
registry count by exactly one. -/
theorem C8_free_entity (ops : List COp) (ent : entity) (i : Nat)
    (hget : (clistForward (run ops)).get? i = some ent.node)
    (hmeta : ∀ g ∈ ent.geoms, g.isSome) :
    (FreeEntity (run ops) ent).2 = ent.geoms.length ∧
      clistForward (FreeEntity (run ops) ent).1 =
        (clistForward (run ops)).erase ent.node ∧
      clistTotal (FreeEntity (run ops) ent).1 + 1 = clistTotal (run ops) := by
  obtain ⟨xs, w⟩ := run_wf ops
  have hmem : ent.node ∈ xs := by
    have := List.get?_mem hget
    rwa [w.forward_eq] at this
  have w' := Wf_delete w hmem
  refine ⟨FreeBodyAndGeoms_all_some ent.geoms hmeta, ?_, ?_⟩
  · show clistForward (clistDeleteNode (run ops) ent.node) = _
    rw [w'.forward_eq, w.forward_eq]
  · show clistTotal (clistDeleteNode (run ops) ent.node) + 1 = _
    rw [w'.total_eq, w.total_eq, List.length_erase_of_mem hmem]
    have hpos : xs.length ≠ 0 := by
      intro h0
      rw [List.length_eq_zero] at h0
      subst h0
      simp at hmem
    omega

/-- Witness for C8: a two-node registry; freeing the entity whose node
is at address 0 and whose body carries three geoms with metadata frees
3 blocks and shrinks the registry from 2 to 1. -/
theorem C8_free_entity_witness :
    (clistForward (run [COp.add 5, COp.add 6])).get? 0 =
        some (entity.mk [some ⟨true, none, none⟩, some ⟨true, none, none⟩,
          some ⟨true, none, none⟩] 0).node ∧
      (∀ g ∈ (entity.mk [some ⟨true, none, none⟩, some ⟨true, none, none⟩,
          some ⟨true, none, none⟩] 0).geoms, g.isSome) ∧
      ((FreeEntity (run [COp.add 5, COp.add 6])
          (entity.mk [some ⟨true, none, none⟩, some ⟨true, none, none⟩,
            some ⟨true, none, none⟩] 0)).2 =
        (entity.mk [some ⟨true, none, none⟩, some ⟨true, none, none⟩,
          some ⟨true, none, none⟩] 0).geoms.length ∧
      clistForward (FreeEntity (run [COp.add 5, COp.add 6])
          (entity.mk [some ⟨true, none, none⟩, some ⟨true, none, none⟩,
            some ⟨true, none, none⟩] 0)).1 =
        (clistForward (run [COp.add 5, COp.add 6])).erase
          (entity.mk [some ⟨true, none, none⟩, some ⟨true, none, none⟩,
            some ⟨true, none, none⟩] 0).node ∧
      clistTotal (FreeEntity (run [COp.add 5, COp.add 6])
          (entity.mk [some ⟨true, none, none⟩, some ⟨true, none, none⟩,
            some ⟨true, none, none⟩] 0)).1 + 1 =
        clistTotal (run [COp.add 5, COp.add 6])) :=
  ⟨by decide, by decide,
    C8_free_entity [COp.add 5, COp.add 6]
      (entity.mk [some ⟨true, none, none⟩, some ⟨true, none, none⟩,
        some ⟨true, none, none⟩] 0) 0 (by decide) (by decide)⟩

/-! ### Delete-then-find (C9) -/

theorem hlookup_update_data (h : Heap) (c b : Nat) (f : CNode → CNode)
    (hf : ∀ n, (f n).data = n.data) :
    ∀ m, hlookup (hupdate h c f) b = some m →
      ∃ m0, hlookup h b = some m0 ∧ m.data = m0.data := by
  intro m hm
  rw [hlookup_hupdate] at hm
  by_cases hcb : c = b
  · rw [if_pos hcb] at hm
    cases h0 : hlookup h b with
    | none => rw [h0] at hm; simp at hm
    | some m0 =>
      rw [h0] at hm
      simp only [Option.map_some'] at hm
      injection hm with hh
      exact ⟨m0, rfl, by rw [← hh, hf m0]⟩
  · rw [if_neg hcb] at hm
    exact ⟨m, hm, rfl⟩

/-- `clistDeleteNode` rewires `prev`/`next` pointers but never touches
a surviving node's payload. -/
theorem delete_data_preserved (s : clist) (a b : Nat) (hb : b ≠ a) :
    ∀ m, hlookup (clistDeleteNode s a).heap b = some m →
      ∃ m0, hlookup s.heap b = some m0 ∧ m.data = m0.data := by
  intro m hm
  cases hlk : hlookup s.heap a with
  | none =>
    simp only [clistDeleteNode, hlk] at hm
    exact ⟨m, hm, rfl⟩
  | some node =>
    cases hq : node.next with
    | none =>
      cases hp : node.prev with
      | none =>
        simp only [clistDeleteNode, hlk, hq, hp] at hm
        rw [hlookup_hremove, if_neg (fun hh => hb hh.symm)] at hm
        exact ⟨m, hm, rfl⟩
      | some p =>
        simp only [clistDeleteNode, hlk, hq, hp] at hm
        rw [hlookup_hremove, if_neg (fun hh => hb hh.symm)] at hm
        exact hlookup_update_data s.heap p b
          (fun n => { n with next := none }) (fun n => rfl) m hm
    | some q =>
      cases hp : node.prev with
      | none =>
        simp only [clistDeleteNode, hlk, hq, hp] at hm
        rw [hlookup_hremove, if_neg (fun hh => hb hh.symm)] at hm
        exact hlookup_update_data s.heap q b
          (fun n => { n with prev := none }) (fun n => rfl) m hm
      | some p =>
        simp only [clistDeleteNode, hlk, hq, hp] at hm
        rw [hlookup_hremove, if_neg (fun hh => hb hh.symm)] at hm
        obtain ⟨m1, hm1, hd1⟩ :=
          hlookup_update_data _ q b
            (fun n => { n with prev := some p }) (fun n => rfl) m hm
        obtain ⟨m0, hm0, hd0⟩ :=
          hlookup_update_data s.heap p b
            (fun n => { n with next := some q }) (fun n => rfl) m1 hm1
        exact ⟨m0, hm0, hd1.trans hd0⟩

/-- C9 (corrected): if the deleted node's payload is not shared with
any other node in the list (payloads are raw pointers; the list does
not forbid duplicates), searching for it after the delete returns
`NULL`. -/
theorem C9_delete_find (ops : List COp) (i a : Nat) (n : CNode)
    (hget : (clistForward (run ops)).get? i = some a)
    (hlk : hlookup (run ops).heap a = some n)
    (huniq : ∀ b ∈ clistForward (run ops), b ≠ a →
      ∀ m, hlookup (run ops).heap b = some m → m.data ≠ n.data) :
    clistFindNode (clistDeleteNode (run ops) a) n.data = none := by
  obtain ⟨xs, w⟩ := run_wf ops
  have hmem : a ∈ xs := by
    have := List.get?_mem hget
    rwa [w.forward_eq] at this
  have w' := Wf_delete w hmem
  unfold clistFindNode
  apply find_none_of_seg n.data (xs.erase a) none
    (clistDeleteNode (run ops) a).head (clistDeleteNode (run ops) a).tail
    w'.seg
  · intro b hb m hm
    have hb' : b ≠ a ∧ b ∈ xs := (w.nodup.mem_erase_iff).mp hb
    obtain ⟨m0, hm0, hd⟩ := delete_data_preserved (run ops) a b hb'.1 m hm
    rw [hd]
    exact huniq b (by rw [w.forward_eq]; exact hb'.2) hb'.1 m0 hm0
  · exact w'.length_le

/-- Witness for C9's amended theorem: a registry `[7, 9]`; after
deleting the node with payload 7 (address 0), searching for 7 finds
nothing. -/
theorem C9_delete_find_witness :
    (clistForward (run [COp.add 7, COp.add 9])).get? 0 = some 0 ∧
      hlookup (run [COp.add 7, COp.add 9]).heap 0 =
        some ⟨none, some 1, 7⟩ ∧
      (∀ b ∈ clistForward (run [COp.add 7, COp.add 9]), b ≠ 0 →
        ∀ m, hlookup (run [COp.add 7, COp.add 9]).heap b = some m →
          m.data ≠ (⟨none, some 1, 7⟩ : CNode).data) ∧
      clistFindNode (clistDeleteNode (run [COp.add 7, COp.add 9]) 0)
        (⟨none, some 1, 7⟩ : CNode).data = none :=
  ⟨by decide, by decide, by decide,
    C9_delete_find [COp.add 7, COp.add 9] 0 0 ⟨none, some 1, 7⟩
      (by decide) (by decide) (by decide)⟩

/-- C9 counterexample: two nodes share the payload 5; deleting the
first (address 0) and searching for its former payload finds the
second, not `NULL`. -/
theorem C9_counterexample :
    0 ∈ clistForward (run [COp.add 5, COp.add 5]) ∧
      hlookup (run [COp.add 5, COp.add 5]).heap 0 = some ⟨none, some 1, 5⟩ ∧
      clistFindNode (clistDeleteNode (run [COp.add 5, COp.add 5]) 0) 5 ≠
        none := by
  refine ⟨by decide, by decide, by decide⟩

/-! ## Random entity creation (src/src/raylibODE.c, CreateRandomEntity)

The `SHAPE_*` constants are used by `CreateRandomEntity` but declared in
a header missing from the source tree. -/

/-- Modelled from the spec: `SHAPE_BOX`, missing from src.  The doc
comment at raylibODE.c:580 ("SHAPE_ALL for all of them,
SHAPE_ALL & ~SHAPE_CAPSULE for all but capsule etc") and the claim
describe five distinct single-bit mask flags. -/
def SHAPE_BOX : Nat := 1

/-- Modelled from the spec: `SHAPE_SPHERE`, a distinct mask bit. -/
def SHAPE_SPHERE : Nat := 2

/-- Modelled from the spec: `SHAPE_CYLINDER`, a distinct mask bit. -/
def SHAPE_CYLINDER : Nat := 4

/-- Modelled from the spec: `SHAPE_CAPSULE`, a distinct mask bit. -/
def SHAPE_CAPSULE : Nat := 8

/-- Modelled from the spec: `SHAPE_DUMBBELL`, a distinct mask bit. -/
def SHAPE_DUMBBELL : Nat := 16

/-- Modelled from the spec: `SHAPE_ALL`, the union of the five bits. -/
def SHAPE_ALL : Nat := 31

/-- The percentile dispatch at raylibODE.c:595-606: `c = rndf(0, 1)`,
box below 0.20, sphere below 0.40, cylinder below 0.60, capsule below
0.80, dumbbell otherwise. -/
def shapeFromRoll (c : ℚ) : Nat :=
  if c < 20/100 then SHAPE_BOX
  else if c < 40/100 then SHAPE_SPHERE
  else if c < 60/100 then SHAPE_CYLINDER
  else if c < 80/100 then SHAPE_CAPSULE
  else SHAPE_DUMBBELL

/-- The `do { … } while(true)` selection loop of `CreateRandomEntity`
(raylibODE.c:594-608): draw the next random value, map it to a shape
kind, exit when `mask & typ` is nonzero; otherwise loop forever.
`stream` is the sequence of `rndf(0, 1)` draws, `i` the index of the
next draw; `fuel` bounds how many iterations we examine, and `none`
means the loop has not exited within `fuel` iterations (so `none` for
every fuel is nontermination). -/
def creLoop (stream : Nat → ℚ) (mask : Nat) : Nat → Nat → Option Nat
  | _, 0 => none
  | i, fuel+1 =>
    let typ := shapeFromRoll (stream i)
    if mask &&& typ ≠ 0 then some typ else creLoop stream mask (i+1) fuel

/-- `CreateRandomEntity`'s selection outcome: the shape kind of the
entity that gets created, if the loop exits within `fuel` draws. -/
def CreateRandomEntity (stream : Nat → ℚ) (mask : Nat) (fuel : Nat) :
    Option Nat :=
  creLoop stream mask 0 fuel

/-- The selection loop never exits, whatever bound is examined. -/
def creNeverExits (stream : Nat → ℚ) (mask : Nat) : Prop :=
  ∀ fuel i, creLoop stream mask i fuel = none

theorem shapeFromRoll_and_all (c : ℚ) :
    SHAPE_ALL &&& shapeFromRoll c = shapeFromRoll c := by
  unfold shapeFromRoll
  split_ifs <;> decide

theorem creLoop_none_of_mask (stream : Nat → ℚ) (mask : Nat)
    (hmask : mask &&& SHAPE_ALL = 0) : creNeverExits stream mask := by
  have htyp : ∀ c : ℚ, mask &&& shapeFromRoll c = 0 := by
    intro c
    calc mask &&& shapeFromRoll c
        = mask &&& (SHAPE_ALL &&& shapeFromRoll c) := by
          rw [shapeFromRoll_and_all]
      _ = (mask &&& SHAPE_ALL) &&& shapeFromRoll c := (Nat.and_assoc _ _ _).symm
      _ = 0 &&& shapeFromRoll c := by rw [hmask]
      _ = 0 := Nat.zero_and _
  intro fuel
  induction fuel with
  | zero => intro i; rfl
  | succ f ih =>
    intro i
    simp only [creLoop, htyp (stream i)]
    simpa using ih (i + 1)

theorem creLoop_hits (stream : Nat → ℚ) (mask : Nat) :
    ∀ (k i : Nat), mask &&& shapeFromRoll (stream (i + k)) ≠ 0 →
      ∃ typ, creLoop stream mask i (k + 1) = some typ ∧ mask &&& typ ≠ 0 := by
  intro k
  induction k with
  | zero =>
    intro i hhit
    simp only [Nat.add_zero] at hhit
    exact ⟨shapeFromRoll (stream i), by simp [creLoop, hhit], hhit⟩
  | succ k ih =>
    intro i hhit
    by_cases hfirst : mask &&& shapeFromRoll (stream i) ≠ 0
    · exact ⟨shapeFromRoll (stream i), by simp [creLoop, hfirst], hfirst⟩
    · have := ih (i + 1) (by rw [show i + 1 + k = i + (k + 1) by omega]; exact hhit)
      obtain ⟨typ, hrun, htyp⟩ := this
      refine ⟨typ, ?_, htyp⟩
      have hstep : creLoop stream mask i (k + 1 + 1) =
          if mask &&& shapeFromRoll (stream i) ≠ 0
          then some (shapeFromRoll (stream i))
          else creLoop stream mask (i + 1) (k + 1) := rfl
      rw [hstep, if_neg hfirst]
      exact hrun

/-- C10 (corrected): the selection loop of `CreateRandomEntity` can
exit only with an enabled kind.  With no shape bit in the mask it never
terminates, regardless of the random sequence; with at least one bit
enabled it exits — with a kind enabled by the mask — as soon as the
random sequence draws a value mapping to an enabled kind (which a real
`rand()` sequence does with probability 1, but an unlucky sequence can
postpone forever). -/
theorem C10_shape_selection (stream : Nat → ℚ) (mask : Nat) :
    (mask &&& SHAPE_ALL = 0 → creNeverExits stream mask) ∧
      (∀ j, mask &&& shapeFromRoll (stream j) ≠ 0 →
        ∃ fuel typ, CreateRandomEntity stream mask fuel = some typ ∧
          mask &&& typ ≠ 0) := by
  constructor
  · exact creLoop_none_of_mask stream mask
  · intro j hhit
    obtain ⟨typ, hrun, htyp⟩ := creLoop_hits stream mask j 0 (by simpa using hhit)
    exact ⟨j + 1, typ, hrun, htyp⟩

/-- Witness for C10's amended theorem: the sphere-only mask with the
all-boxes random stream never exits within 5 iterations (first
conjunct applied), and with a stream whose first draw is 0.3 (sphere)
the loop exits immediately with an enabled kind (second conjunct
applied at `j = 0`). -/
theorem C10_shape_selection_witness :
    ((0 : Nat) &&& SHAPE_ALL = 0 ∧
        creLoop (fun _ => (1 : ℚ)/10) 0 0 5 = none) ∧
      (SHAPE_SPHERE &&& shapeFromRoll ((fun _ => (3 : ℚ)/10) 0) ≠ 0 ∧
        ∃ fuel typ,
          CreateRandomEntity (fun _ => (3 : ℚ)/10) SHAPE_SPHERE fuel =
            some typ ∧ SHAPE_SPHERE &&& typ ≠ 0) := by
  have hroll : shapeFromRoll ((3 : ℚ)/10) = SHAPE_SPHERE := by
    norm_num [shapeFromRoll]
  constructor
  · constructor
    · decide
    · exact (C10_shape_selection (fun _ => (1 : ℚ)/10) 0).1 rfl 5 0
  · constructor
    · rw [hroll]
      decide
    · exact (C10_shape_selection (fun _ => (3 : ℚ)/10) SHAPE_SPHERE).2 0
        (by rw [hroll]; decide)

/-- C10 counterexample: the mask `SHAPE_SPHERE` has a shape bit set,
yet against the random sequence that always draws 0.1 (a box roll) the
loop never exits — "when at least one bit is set, the loop exits" does
not hold for every random sequence. -/
theorem C10_counterexample :
    SHAPE_SPHERE &&& SHAPE_ALL ≠ 0 ∧
      creNeverExits (fun _ => (1 : ℚ)/10) SHAPE_SPHERE := by
  constructor
  · decide
  · have hroll : shapeFromRoll ((1 : ℚ)/10) = SHAPE_BOX := by
      norm_num [shapeFromRoll]
    intro fuel
    induction fuel with
    | zero => intro i; rfl
    | succ f ih =>
      intro i
      simp only [creLoop, hroll]
      rw [if_neg (by decide)]
      exact ih (i + 1)

end RayLibOdeMech
